import Mathlib

/-
Shallow embedding, in Lean 4, of the crawl/download engine of the Crawler
repository (Python sources under src/): the crawl queue (core/crawl_queue.py),
the worker pool aggregation and depth gate (workers/worker_pool.py), the HTML
extraction heuristics (core/parser.py), the per-item download loop
(workers/downloader_worker.py) and the resource catalog (core/database.py).
Each definition mirrors one Python function or method; threads, sockets and
Qt signals are modelled as explicit state passing.
-/

namespace Crawler

/-- Priority levels of `core/crawl_queue.py` (`class Priority(IntEnum)`):
lower number = higher priority. -/
inductive Priority
  | HIGH
  | NORMAL
  | LOW
deriving DecidableEq, Repr

/-- Numeric value of the `IntEnum` member (HIGH=1, NORMAL=2, LOW=3). -/
def Priority.val : Priority → Nat
  | .HIGH => 1
  | .NORMAL => 2
  | .LOW => 3

/-- Mirror of `CrawlTask` (`core/crawl_queue.py`): a dataclass with fields
`url, depth, priority, referer`, declared with `order=True`, so instances
compare lexicographically field by field in declaration order. -/
structure CrawlTask where
  url : String
  depth : Nat
  priority : Priority
  referer : Option String
deriving DecidableEq, Repr

/-- State of a `CrawlQueue` (`core/crawl_queue.py`): the content of the inner
`queue.PriorityQueue` (the `(priority, task)` entries, kept here in insertion
order), its `maxsize` bound (0 = unlimited), the `_visited_urls` set and the
statistics counters. -/
structure CrawlQueue where
  heap : List (Nat × CrawlTask)
  maxsize : Nat
  visited : List String
  total_queued : Nat
  total_completed : Nat
  total_failed : Nat
deriving DecidableEq, Repr

/-- Mirror of `CrawlQueue.__init__(maxsize)` (default `maxsize=0`). -/
def CrawlQueue.init (maxsize : Nat) : CrawlQueue :=
  ⟨[], maxsize, [], 0, 0, 0⟩

/-- A `queue.PriorityQueue(maxsize)` is full when `maxsize > 0` and it holds
at least `maxsize` items. -/
def CrawlQueue.isFull (q : CrawlQueue) : Prop :=
  q.maxsize ≠ 0 ∧ q.maxsize ≤ q.heap.length

instance (q : CrawlQueue) : Decidable q.isFull := by
  unfold CrawlQueue.isFull; infer_instance

/-- Mirror of `CrawlQueue.put(task, block, timeout)`.  The Python method first
checks and updates `_visited_urls` under the lock, then calls the inner
`PriorityQueue.put`, which raises `queue.Full` only for a non-blocking or
timed-out call on a full bounded queue (`blocking = false` models that mode;
`blocking = true` models the default `block=True, timeout=None` call, which
waits for space and never raises).  On `queue.Full` the method returns
`False` with the URL already recorded as visited and `_total_queued` not
incremented. -/
def CrawlQueue.put (q : CrawlQueue) (task : CrawlTask) (blocking : Bool) :
    CrawlQueue × Bool :=
  if task.url ∈ q.visited then
    (q, false)
  else if blocking = false ∧ q.isFull then
    ({ q with visited := task.url :: q.visited }, false)
  else
    ({ q with visited := task.url :: q.visited,
              heap := q.heap ++ [(task.priority.val, task)],
              total_queued := q.total_queued + 1 }, true)

/-- Key on which Python orders the heap entries `(task.priority, task)`:
tuple comparison reaches the `IntEnum` value first, then the dataclass
fields of `CrawlTask` in declaration order (`url`, then `depth`, then
`priority.value`).  String comparison is code-point lexicographic, modelled
on the character list.  The trailing `referer` field could only be reached
when two entries agree on all earlier fields, which is impossible for entries
of one queue (their URLs are pairwise distinct), so it is not part of the
key. -/
abbrev EntryKey : Type := Lex (Nat × Lex (List Char × Lex (Nat × Nat)))

/-- Comparison key of one heap entry. -/
def entryKey (e : Nat × CrawlTask) : EntryKey :=
  toLex (e.1, toLex (e.2.url.data, toLex (e.2.depth, e.2.priority.val)))

/-- Strict comparison used by the binary heap inside `queue.PriorityQueue`. -/
def entryLT (e₁ e₂ : Nat × CrawlTask) : Prop := entryKey e₁ < entryKey e₂

instance (e₁ e₂ : Nat × CrawlTask) : Decidable (entryLT e₁ e₂) := by
  unfold entryLT; infer_instance

theorem entryLT_trans {x y z : Nat × CrawlTask}
    (h₁ : entryLT x y) (h₂ : entryLT y z) : entryLT x z := lt_trans h₁ h₂

theorem entryLT_irrefl (x : Nat × CrawlTask) : ¬ entryLT x x := lt_irrefl _

theorem entryLT_conn {x z : Nat × CrawlTask} (y : Nat × CrawlTask)
    (h : entryLT x z) : entryLT x y ∨ entryLT y z := by
  rcases lt_or_le (entryKey x) (entryKey y) with h' | h'
  · exact Or.inl h'
  · exact Or.inr (lt_of_le_of_lt h' h)

/-- Minimum entry of the heap content: what `heappop` inside
`PriorityQueue.get` returns. -/
def heapMin : List (Nat × CrawlTask) → Option (Nat × CrawlTask)
  | [] => none
  | e :: es => some (es.foldl (fun m e' => if entryLT e' m then e' else m) e)

/-- Mirror of `CrawlQueue.get`: pops the smallest `(priority, task)` entry,
or returns `none` on an empty queue (the `queue.Empty` timeout path).  The
visited set is left untouched. -/
def CrawlQueue.get (q : CrawlQueue) : Option CrawlTask × CrawlQueue :=
  match heapMin q.heap with
  | none => (none, q)
  | some e => (some e.2, { q with heap := q.heap.erase e })

/-- Mirror of `CrawlQueue.task_done(success)`. -/
def CrawlQueue.task_done (q : CrawlQueue) (success : Bool) : CrawlQueue :=
  if success then { q with total_completed := q.total_completed + 1 }
  else { q with total_failed := q.total_failed + 1 }

/-- Mirror of `CrawlQueue.clear`. -/
def CrawlQueue.clear (q : CrawlQueue) : CrawlQueue :=
  { q with heap := [], visited := [], total_queued := 0,
           total_completed := 0, total_failed := 0 }

/-- One queue operation of the surface a queue sees between `clear()` calls. -/
inductive QOp
  | put (task : CrawlTask) (blocking : Bool)
  | get
  | task_done (success : Bool)

/-- Effect of one operation on the queue state. -/
def applyOp (q : CrawlQueue) : QOp → CrawlQueue
  | .put t b => (q.put t b).1
  | .get => q.get.2
  | .task_done s => q.task_done s

/-- Effect of a sequence of operations on the queue state. -/
def applyOps (q : CrawlQueue) (ops : List QOp) : CrawlQueue :=
  ops.foldl applyOp q

theorem visited_applyOp_mono {u : String} {q : CrawlQueue} (op : QOp)
    (h : u ∈ q.visited) : u ∈ (applyOp q op).visited := by
  cases op with
  | put t b =>
    simp only [applyOp, CrawlQueue.put]
    split
    · exact h
    · split <;> exact List.mem_cons_of_mem _ h
  | get =>
    simp only [applyOp, CrawlQueue.get]
    rcases hm : heapMin q.heap with _ | e <;> simp [hm, h]
  | task_done s =>
    cases s <;> simp [applyOp, CrawlQueue.task_done, h]

theorem visited_applyOps_mono {u : String} {q : CrawlQueue} (ops : List QOp)
    (h : u ∈ q.visited) : u ∈ (applyOps q ops).visited := by
  induction ops generalizing q with
  | nil => exact h
  | cons op ops ih => exact ih (visited_applyOp_mono op h)

theorem put_visited_false {q : CrawlQueue} {t : CrawlTask} (b : Bool)
    (h : t.url ∈ q.visited) : q.put t b = (q, false) := by
  simp [CrawlQueue.put, h]

theorem minFold_mem (es : List (Nat × CrawlTask)) (a : Nat × CrawlTask) :
    es.foldl (fun m e' => if entryLT e' m then e' else m) a ∈ a :: es := by
  induction es generalizing a with
  | nil => simp
  | cons x xs ih =>
    simp only [List.foldl_cons]
    by_cases hx : entryLT x a
    · rw [if_pos hx]
      rcases List.mem_cons.mp (ih x) with h | h
      · rw [h]; simp
      · simp [h]
    · rw [if_neg hx]
      rcases List.mem_cons.mp (ih a) with h | h
      · rw [h]; simp
      · simp [h]

theorem minFold_not_lt (es : List (Nat × CrawlTask)) (a : Nat × CrawlTask) :
    ∀ x ∈ a :: es,
      ¬ entryLT x (es.foldl (fun m e' => if entryLT e' m then e' else m) a) := by
  induction es generalizing a with
  | nil =>
    intro x hx
    simp only [List.mem_singleton] at hx
    subst hx
    simpa using entryLT_irrefl x
  | cons y ys ih =>
    intro x hx hlt
    simp only [List.foldl_cons] at hlt
    by_cases hy : entryLT y a
    · rw [if_pos hy] at hlt
      rcases List.mem_cons.mp hx with rfl | hx'
      · exact ih y y (List.mem_cons_self _ _) (entryLT_trans hy hlt)
      · exact ih y x hx' hlt
    · rw [if_neg hy] at hlt
      rcases List.mem_cons.mp hx with rfl | hx'
      · exact ih x x (List.mem_cons_self _ _) hlt
      · rcases List.mem_cons.mp hx' with rfl | hx''
        · rcases entryLT_conn a hlt with h | h
          · exact hy h
          · exact ih a a (List.mem_cons_self _ _) h
        · exact ih a x (List.mem_cons_of_mem _ hx'') hlt

theorem heapMin_spec {l : List (Nat × CrawlTask)} (h : l ≠ []) :
    ∃ e, heapMin l = some e ∧ e ∈ l ∧ ∀ x ∈ l, ¬ entryLT x e := by
  cases l with
  | nil => exact absurd rfl h
  | cons a es => exact ⟨_, rfl, minFold_mem es a, minFold_not_lt es a⟩

/-- Claim C2, confirmed for the queues the program constructs (the only
instantiation, `WorkerPool.__init__`, uses `CrawlQueue()` with the default
`maxsize=0`, on which the inner queue is never full): the first `put` of a
task with a fresh URL returns `True`, enqueues the `(priority, task)` entry
and increments `total_queued`; every later `put` of any task with the same
URL — after any further sequence of put/get/task_done operations — returns
`False` and leaves the queue state completely unchanged.  A URL is accepted
exactly once per queue lifetime (`clear()` resets the visited set). -/
theorem put_accepts_url_exactly_once
    (q : CrawlQueue) (t t' : CrawlTask) (ops : List QOp) (b : Bool)
    (hmax : q.maxsize = 0) (hnew : t.url ∉ q.visited) (hurl : t'.url = t.url) :
    (q.put t true).2 = true ∧
    (t.priority.val, t) ∈ (q.put t true).1.heap ∧
    (q.put t true).1.total_queued = q.total_queued + 1 ∧
    ((applyOps (q.put t true).1 ops).put t' b).2 = false ∧
    ((applyOps (q.put t true).1 ops).put t' b).1 = applyOps (q.put t true).1 ops := by
  have hfull : ¬ q.isFull := by simp [CrawlQueue.isFull, hmax]
  have hput : q.put t true =
      ({ q with visited := t.url :: q.visited,
                heap := q.heap ++ [(t.priority.val, t)],
                total_queued := q.total_queued + 1 }, true) := by
    simp [CrawlQueue.put, hnew, hfull]
  have hv1 : t.url ∈ (q.put t true).1.visited := by
    rw [hput]; exact List.mem_cons_self _ _
  have hv2 : t'.url ∈ (applyOps (q.put t true).1 ops).visited :=
    hurl ▸ visited_applyOps_mono ops hv1
  have hlast := put_visited_false b hv2
  refine ⟨by rw [hput], ?_, by rw [hput], by rw [hlast], by rw [hlast]⟩
  rw [hput]
  simp

/-- Claim C2 witness at a concrete queue: the first `put` of
`http://a/` into a fresh unbounded queue is accepted, a second `put` of a
different task with the same URL is rejected. -/
theorem put_accepts_url_exactly_once_witness :
    ((CrawlQueue.init 0).put ⟨"http://a/", 1, .HIGH, none⟩ true).2 = true ∧
    (((CrawlQueue.init 0).put ⟨"http://a/", 1, .HIGH, none⟩ true).1.put
        ⟨"http://a/", 2, .NORMAL, some "http://r/"⟩ true).2 = false := by
  have h := put_accepts_url_exactly_once (CrawlQueue.init 0)
      ⟨"http://a/", 1, .HIGH, none⟩ ⟨"http://a/", 2, .NORMAL, some "http://r/"⟩
      [] true rfl (by decide) rfl
  exact ⟨h.1, h.2.2.2.1⟩

/-- Claim C10 (implicit behavior of `CrawlQueue.put` on a full bounded
queue): when the inner `PriorityQueue.put` raises `queue.Full` (non-blocking
or timed-out put on a queue at `maxsize`), `put` returns `False`, the heap
and `total_queued` are unchanged, but the task's URL is already in the
visited set, so every later `put` of any task with that URL also returns
`False`: the URL can never be enqueued for the rest of the queue's lifetime
even though it was never queued. -/
theorem put_full_queue_poisons_url
    (q : CrawlQueue) (t t' : CrawlTask) (ops : List QOp) (b : Bool)
    (hb : q.maxsize ≠ 0) (hlen : q.maxsize ≤ q.heap.length)
    (hnew : t.url ∉ q.visited) (hurl : t'.url = t.url) :
    (q.put t false).2 = false ∧
    (q.put t false).1.heap = q.heap ∧
    (q.put t false).1.total_queued = q.total_queued ∧
    t.url ∈ (q.put t false).1.visited ∧
    ((applyOps (q.put t false).1 ops).put t' b).2 = false := by
  have hfull : q.isFull := ⟨hb, hlen⟩
  have hput : q.put t false = ({ q with visited := t.url :: q.visited }, false) := by
    simp [CrawlQueue.put, hnew, hfull]
  have hv1 : t.url ∈ (q.put t false).1.visited := by
    rw [hput]; exact List.mem_cons_self _ _
  have hv2 : t'.url ∈ (applyOps (q.put t false).1 ops).visited :=
    hurl ▸ visited_applyOps_mono ops hv1
  have hlast := put_visited_false b hv2
  exact ⟨by rw [hput], by rw [hput], by rw [hput], hv1, by rw [hlast]⟩

/-- Claim C10 witness: a queue with `maxsize=1` holding one task rejects a
non-blocking `put` of `http://b/`, and a later `put` of that URL (after the
queue drained) is still rejected. -/
theorem put_full_queue_poisons_url_witness :
    ((((CrawlQueue.init 1).put ⟨"http://a/", 1, .HIGH, none⟩ true).1).put
        ⟨"http://b/", 2, .NORMAL, none⟩ false).2 = false ∧
    ((applyOps ((((CrawlQueue.init 1).put ⟨"http://a/", 1, .HIGH, none⟩ true).1).put
          ⟨"http://b/", 2, .NORMAL, none⟩ false).1 [.get]).put
        ⟨"http://b/", 3, .LOW, none⟩ true).2 = false := by
  have h := put_full_queue_poisons_url
      (((CrawlQueue.init 1).put ⟨"http://a/", 1, .HIGH, none⟩ true).1)
      ⟨"http://b/", 2, .NORMAL, none⟩ ⟨"http://b/", 3, .LOW, none⟩
      [.get] true (by decide) (by decide) (by decide) rfl
  exact ⟨h.1, h.2.2.2.2⟩

/-- Claim C7 counterexample: equal-priority tasks are not dequeued in
insertion (FIFO) order.  `http://b.com/` is inserted before `http://a.com/`,
both at NORMAL priority, yet `get` returns `http://a.com/` first, because
the heap breaks the priority tie with the dataclass ordering of `CrawlTask`
(URL code-point order), not insertion order. -/
theorem get_not_fifo :
    (((CrawlQueue.init 0).put ⟨"http://b.com/", 1, .NORMAL, none⟩ true).1.put
        ⟨"http://a.com/", 1, .NORMAL, none⟩ true).1.heap
      = [(2, ⟨"http://b.com/", 1, .NORMAL, none⟩),
         (2, ⟨"http://a.com/", 1, .NORMAL, none⟩)] ∧
    (((CrawlQueue.init 0).put ⟨"http://b.com/", 1, .NORMAL, none⟩ true).1.put
        ⟨"http://a.com/", 1, .NORMAL, none⟩ true).1.get.1
      = some ⟨"http://a.com/", 1, .NORMAL, none⟩ := by
  decide

/-- Claim C7 (amended): `CrawlQueue.get` always returns a task of the
numerically lowest priority currently queued; among tasks of equal priority
the tie is broken by the heap's comparison of the `(priority, task)` tuples,
i.e. by the `CrawlTask` dataclass ordering (URL code-point order first, then
depth, then priority value) — not by insertion order. -/
theorem get_returns_heap_minimum (q : CrawlQueue) (h : q.heap ≠ []) :
    ∃ e, e ∈ q.heap ∧ q.get.1 = some e.2 ∧
      (∀ e' ∈ q.heap, e.1 ≤ e'.1) ∧
      (∀ e' ∈ q.heap, ¬ entryLT e' e) := by
  rcases heapMin_spec h with ⟨e, hmin, hmem, hnotlt⟩
  refine ⟨e, hmem, ?_, ?_, hnotlt⟩
  · simp [CrawlQueue.get, hmin]
  · intro e' he'
    by_contra hcon
    push_neg at hcon
    exact hnotlt e' he' ((Prod.Lex.lt_iff _ _).mpr (Or.inl hcon))

/-- Claim C7 witness: on the two-task queue of the counterexample, `get`
returns an entry that is minimal in the heap order. -/
theorem get_returns_heap_minimum_witness :
    ∃ e, e ∈ (((CrawlQueue.init 0).put ⟨"http://b.com/", 1, .NORMAL, none⟩ true).1.put
        ⟨"http://a.com/", 1, .NORMAL, none⟩ true).1.heap ∧
      (((CrawlQueue.init 0).put ⟨"http://b.com/", 1, .NORMAL, none⟩ true).1.put
        ⟨"http://a.com/", 1, .NORMAL, none⟩ true).1.get.1 = some e.2 ∧
      (∀ e' ∈ (((CrawlQueue.init 0).put ⟨"http://b.com/", 1, .NORMAL, none⟩ true).1.put
        ⟨"http://a.com/", 1, .NORMAL, none⟩ true).1.heap, e.1 ≤ e'.1) ∧
      (∀ e' ∈ (((CrawlQueue.init 0).put ⟨"http://b.com/", 1, .NORMAL, none⟩ true).1.put
        ⟨"http://a.com/", 1, .NORMAL, none⟩ true).1.heap, ¬ entryLT e' e) :=
  get_returns_heap_minimum
    ((((CrawlQueue.init 0).put ⟨"http://b.com/", 1, .NORMAL, none⟩ true).1.put
        ⟨"http://a.com/", 1, .NORMAL, none⟩ true).1) (by decide)

/-- Resource types of `core/models.py` (`class ResourceType(Enum)`). -/
inductive ResourceType
  | VIDEO
  | IMAGE
  | TEXT
  | M3U8
  | AUDIO
  | UNKNOWN
  | JSON_DATA
  | RICH_TEXT
deriving DecidableEq, Repr

/-- Mirror of the `Resource` dataclass (`core/models.py`), restricted to the
fields the verified code paths read (`url`, `resource_type`, `title`,
`file_extension`, `referer`, `content`); download-state fields and the
`__post_init__` inference of type/extension/title are not needed by the
functions embedded here, which always set these fields explicitly. -/
structure Resource where
  url : String
  resource_type : ResourceType
  title : String
  file_extension : String
  referer : Option String
  content : String
deriving DecidableEq, Repr

/-- Mirror of `ScrapedData` (`core/scraped_data.py`): category-partitioned
resource lists of one crawl run. -/
structure ScrapedData where
  images : List Resource
  videos : List Resource
  audios : List Resource
  documents : List Resource
  m3u8_streams : List Resource
  source_url : String
deriving DecidableEq, Repr

/-- Mirror of `ScrapedData(source_url=...)` as built by
`WorkerPool.start_crawl`. -/
def ScrapedData.init (source_url : String) : ScrapedData :=
  ⟨[], [], [], [], [], source_url⟩

/-- Document-like extensions checked by `WorkerPool._on_task_completed` for
resources of unknown type. -/
def doc_extensions : List String :=
  [".pdf", ".doc", ".docx", ".xls", ".xlsx", ".ppt", ".pptx", ".txt"]

/-- Mirror of the per-resource body of the aggregation loop in
`WorkerPool._on_task_completed` (workers/worker_pool.py): the resource is
appended to the category list chosen by its `resource_type`; resources of
unknown type are kept only when their extension is document-like. -/
def categorize (sd : ScrapedData) (res : Resource) : ScrapedData :=
  match res.resource_type with
  | .IMAGE => { sd with images := sd.images ++ [res] }
  | .VIDEO => { sd with videos := sd.videos ++ [res] }
  | ResourceType.AUDIO => { sd with audios := sd.audios ++ [res] }
  | .M3U8 => { sd with m3u8_streams := sd.m3u8_streams ++ [res] }
  | .TEXT => { sd with documents := sd.documents ++ [res] }
  | .JSON_DATA => { sd with documents := sd.documents ++ [res] }
  | .RICH_TEXT => { sd with documents := sd.documents ++ [res] }
  | .UNKNOWN =>
      if res.file_extension ∈ doc_extensions then
        { sd with documents := sd.documents ++ [res] }
      else sd

/-- Aggregation step of `WorkerPool._on_task_completed`: one completed
task's resource list is folded into the shared `ScrapedData` — a plain
append, with no deduplication against resources of earlier tasks. -/
def aggregateResources (sd : ScrapedData) (resources : List Resource) : ScrapedData :=
  resources.foldl categorize sd

/-- Loop body of `PageParser._deduplicate` (core/parser.py): the accumulator
carries `(unique, seen)`. -/
def dedupStep (acc : List Resource × List String) (res : Resource) :
    List Resource × List String :=
  if res.url ≠ "" ∧ res.url ∉ acc.2 then (acc.1 ++ [res], res.url :: acc.2)
  else if res.url = "" then (acc.1 ++ [res], acc.2)
  else acc

/-- Mirror of `PageParser._deduplicate`: keep the first resource for each
non-empty URL, pass URL-less (inline content) resources through unchanged. -/
def deduplicate (resources : List Resource) : List Resource :=
  (resources.foldl dedupStep ([], [])).1

theorem dedup_foldl_nodup (l : List Resource) :
    ∀ acc : List Resource × List String,
      ((acc.1.filter (fun r => r.url != "")).map Resource.url).Nodup →
      (∀ r ∈ acc.1, r.url ≠ "" → r.url ∈ acc.2) →
      (((l.foldl dedupStep acc).1.filter (fun r => r.url != "")).map Resource.url).Nodup := by
  induction l with
  | nil => intro acc h1 _; exact h1
  | cons res rest ih =>
    intro acc h1 h2
    simp only [List.foldl_cons]
    by_cases hu : res.url = ""
    · have hstep : dedupStep acc res = (acc.1 ++ [res], acc.2) := by
        simp [dedupStep, hu]
      rw [hstep]
      apply ih
      · simpa [List.filter_append, hu] using h1
      · intro r hr hne
        rcases List.mem_append.mp hr with h | h
        · exact h2 r h hne
        · simp only [List.mem_singleton] at h
          subst h
          exact absurd hu hne
    · by_cases hseen : res.url ∈ acc.2
      · have hstep : dedupStep acc res = acc := by
          simp [dedupStep, hu, hseen]
        rw [hstep]
        exact ih acc h1 h2
      · have hstep : dedupStep acc res = (acc.1 ++ [res], res.url :: acc.2) := by
          simp [dedupStep, hu, hseen]
        rw [hstep]
        apply ih
        · have hnotmem : res.url ∉ (acc.1.filter (fun r => r.url != "")).map Resource.url := by
            intro hmem
            rcases List.mem_map.mp hmem with ⟨r, hr, hru⟩
            have := h2 r (List.mem_of_mem_filter hr) (by
              have := List.of_mem_filter hr
              simpa using this)
            exact hseen (hru ▸ this)
          simp only [List.filter_append, List.map_append]
          refine List.Nodup.append h1 ?_ ?_
          · simp [hu]
          · intro u hu1 hu2
            simp only [List.filter_cons, List.filter_nil] at hu2
            have : u = res.url := by
              by_cases hcase : (res.url != "") = true
              · simp [hcase] at hu2; exact hu2
              · simp [hcase] at hu2
            exact hnotmem (this ▸ hu1)
        · intro r hr hne
          rcases List.mem_append.mp hr with h | h
          · exact List.mem_cons_of_mem _ (h2 r h hne)
          · simp only [List.mem_singleton] at h
            subst h
            exact List.mem_cons_self _ _

/-- Claim C1 counterexample: two completed tasks (two different pages) can
each contribute a resource with the same URL; `WorkerPool._on_task_completed`
appends both, so the aggregated `images` list repeats a URL.  Each task's
own list is exactly what `PageParser._deduplicate` returns, so such input
lists do arise from the parser. -/
theorem scraped_images_urls_not_unique :
    deduplicate [(⟨"http://e.com/a.jpg", .IMAGE, "a", ".jpg", some "http://p1/", ""⟩ : Resource)]
      = [(⟨"http://e.com/a.jpg", .IMAGE, "a", ".jpg", some "http://p1/", ""⟩ : Resource)] ∧
    deduplicate [(⟨"http://e.com/a.jpg", .IMAGE, "a", ".jpg", some "http://p2/", ""⟩ : Resource)]
      = [(⟨"http://e.com/a.jpg", .IMAGE, "a", ".jpg", some "http://p2/", ""⟩ : Resource)] ∧
    ((aggregateResources
        (aggregateResources (ScrapedData.init "http://p1/")
          [⟨"http://e.com/a.jpg", .IMAGE, "a", ".jpg", some "http://p1/", ""⟩])
        [⟨"http://e.com/a.jpg", .IMAGE, "a", ".jpg", some "http://p2/", ""⟩]).images.map
      Resource.url)
      = ["http://e.com/a.jpg", "http://e.com/a.jpg"] ∧
    ¬ ((aggregateResources
        (aggregateResources (ScrapedData.init "http://p1/")
          [⟨"http://e.com/a.jpg", .IMAGE, "a", ".jpg", some "http://p1/", ""⟩])
        [⟨"http://e.com/a.jpg", .IMAGE, "a", ".jpg", some "http://p2/", ""⟩]).images.map
      Resource.url).Nodup := by
  decide

/-- Claim C1 (amended): URL uniqueness holds within a single extraction
pass — in the output of `PageParser._deduplicate`, resources with non-empty
URLs have pairwise-distinct URLs, and only URL-less inline-content resources
are exempt.  Across completed tasks, `WorkerPool._on_task_completed` appends
task results into the shared category lists without any cross-task
deduplication, so an aggregated list may repeat a URL discovered by two
different pages. -/
theorem deduplicate_nonempty_urls_nodup (l : List Resource) :
    (((deduplicate l).filter (fun r => r.url != "")).map Resource.url).Nodup := by
  apply dedup_foldl_nodup l ([], [])
  · simp
  · intro r hr
    simp at hr

/-- Claim C1 witness: on a parse output holding a duplicated URL and an
URL-less inline resource, the deduplicated list has pairwise-distinct
non-empty URLs. -/
theorem deduplicate_nonempty_urls_nodup_witness :
    (((deduplicate
        [⟨"http://e.com/a.jpg", .IMAGE, "a", ".jpg", none, ""⟩,
         ⟨"http://e.com/a.jpg", .IMAGE, "a2", ".jpg", none, ""⟩,
         ⟨"", .JSON_DATA, "Detected Script JSON", "", none, "x"⟩,
         ⟨"http://e.com/b.jpg", .IMAGE, "b", ".jpg", none, ""⟩]).filter
      (fun r => r.url != "")).map Resource.url).Nodup :=
  deduplicate_nonempty_urls_nodup
    [⟨"http://e.com/a.jpg", .IMAGE, "a", ".jpg", none, ""⟩,
     ⟨"http://e.com/a.jpg", .IMAGE, "a2", ".jpg", none, ""⟩,
     ⟨"", .JSON_DATA, "Detected Script JSON", "", none, "x"⟩,
     ⟨"http://e.com/b.jpg", .IMAGE, "b", ".jpg", none, ""⟩]

/-- Mirror of the pagination-link loop of `WorkerPool._on_task_completed`
(workers/worker_pool.py): for every link, when `depth < max_depth`, a task
with `depth+1`, NORMAL priority and `referer = url` is `put` on the crawl
queue (a default, blocking put).  Returns the final queue together with the
list of tasks the queue actually accepted, in order. -/
def queueLinks (max_depth : Nat) (url : String) (links : List String)
    (depth : Nat) (q : CrawlQueue) : CrawlQueue × List CrawlTask :=
  links.foldl
    (fun acc link =>
      if depth < max_depth then
        let t : CrawlTask := ⟨link, depth + 1, .NORMAL, some url⟩
        let r := acc.1.put t true
        (r.1, acc.2 ++ if r.2 then [t] else [])
      else acc)
    (q, [])

theorem queueLinks_gate_closed (max_depth : Nat) (url : String)
    (links : List String) (depth : Nat) (q : CrawlQueue)
    (h : max_depth ≤ depth) :
    queueLinks max_depth url links depth q = (q, []) := by
  unfold queueLinks
  simp only [if_neg (Nat.not_lt.mpr h)]
  induction links with
  | nil => rfl
  | cons l ls ih => simp only [List.foldl_cons]; exact ih

theorem queueLinks_fresh_aux (max_depth : Nat) (url : String) (depth : Nat)
    (hd : depth < max_depth) :
    ∀ (links : List String) (q : CrawlQueue) (acc : List CrawlTask),
      q.maxsize = 0 → links.Nodup → (∀ l ∈ links, l ∉ q.visited) →
      (links.foldl
        (fun acc link =>
          if depth < max_depth then
            let t : CrawlTask := ⟨link, depth + 1, .NORMAL, some url⟩
            let r := acc.1.put t true
            (r.1, acc.2 ++ if r.2 then [t] else [])
          else acc)
        (q, acc)).2
      = acc ++ links.map (fun l => (⟨l, depth + 1, .NORMAL, some url⟩ : CrawlTask)) := by
  simp only [if_pos hd]
  intro links
  induction links with
  | nil => intro q acc _ _ _; simp
  | cons l ls ih =>
    intro q acc hmax hnd hfresh
    have hnew : l ∉ q.visited := hfresh l (List.mem_cons_self _ _)
    have hfull : ¬ q.isFull := by simp [CrawlQueue.isFull, hmax]
    have hput : q.put ⟨l, depth + 1, .NORMAL, some url⟩ true =
        ({ q with visited := l :: q.visited,
                  heap := q.heap ++ [(Priority.NORMAL.val, ⟨l, depth + 1, .NORMAL, some url⟩)],
                  total_queued := q.total_queued + 1 }, true) := by
      simp [CrawlQueue.put, hnew, hfull]
    have hfr : ∀ l' ∈ ls,
        l' ∉ ((q.put ⟨l, depth + 1, .NORMAL, some url⟩ true).1).visited := by
      intro l' hl'
      rw [hput]
      have hne : l' ≠ l := by
        rintro rfl
        exact (List.nodup_cons.mp hnd).1 hl'
      have hnv : l' ∉ q.visited := hfresh l' (List.mem_cons_of_mem _ hl')
      simp [hne, hnv]
    have hmax' : ((q.put ⟨l, depth + 1, .NORMAL, some url⟩ true).1).maxsize = 0 := by
      rw [hput]; exact hmax
    have hrec := ih ((q.put ⟨l, depth + 1, .NORMAL, some url⟩ true).1)
      (acc ++ [⟨l, depth + 1, .NORMAL, some url⟩]) hmax' (List.Nodup.of_cons hnd) hfr
    simp only [List.foldl_cons]
    simpa [hput] using hrec

/-- Claim C3: depth gate of `WorkerPool._on_task_completed`.  For a crawl
seeded at depth 1: with `max_depth = 1` no pagination link is ever enqueued
(first and second conjuncts); with `max_depth = 2` every pagination link
discovered at depth 1 — the parser returns them deduplicated, and none equal
to the already-visited seed — is accepted by the queue exactly once, as a
task at depth 2, NORMAL priority and `referer` = the discovering page's URL
(third conjunct); links discovered at depth 2 are never enqueued (fourth
conjunct). -/
theorem depth_gate (seed : String) (links : List String)
    (hnd : links.Nodup) (hseed : seed ∉ links) :
    (∀ (url : String) (ls : List String) (depth maxd : Nat) (q : CrawlQueue),
        maxd ≤ depth → queueLinks maxd url ls depth q = (q, [])) ∧
    (queueLinks 1 seed links 1
        (((CrawlQueue.init 0).put ⟨seed, 1, .HIGH, none⟩ true).1)).2 = [] ∧
    (queueLinks 2 seed links 1
        (((CrawlQueue.init 0).put ⟨seed, 1, .HIGH, none⟩ true).1)).2
      = links.map (fun l => (⟨l, 2, .NORMAL, some seed⟩ : CrawlTask)) ∧
    (∀ (url : String) (ls : List String) (q : CrawlQueue),
        queueLinks 2 url ls 2 q = (q, [])) := by
  have hq1 : ((CrawlQueue.init 0).put ⟨seed, 1, .HIGH, none⟩ true).1 =
      { heap := [(Priority.HIGH.val, ⟨seed, 1, .HIGH, none⟩)], maxsize := 0,
        visited := [seed], total_queued := 1, total_completed := 0,
        total_failed := 0 } := by
    simp [CrawlQueue.put, CrawlQueue.init, CrawlQueue.isFull]
  refine ⟨fun url ls depth maxd q h => queueLinks_gate_closed maxd url ls depth q h,
    ?_, ?_, fun url ls q => queueLinks_gate_closed 2 url ls 2 q (le_refl 2)⟩
  · have := queueLinks_gate_closed 1 seed links 1
      (((CrawlQueue.init 0).put ⟨seed, 1, .HIGH, none⟩ true).1) (le_refl 1)
    rw [this]
  · unfold queueLinks
    rw [hq1]
    have := queueLinks_fresh_aux 2 seed 1 (by omega) links
      { heap := [(Priority.HIGH.val, ⟨seed, 1, .HIGH, none⟩)], maxsize := 0,
        visited := [seed], total_queued := 1, total_completed := 0,
        total_failed := 0 } [] rfl hnd ?fresh
    · simpa using this
    case fresh =>
      intro l hl
      simp only [List.mem_singleton]
      rintro rfl
      exact hseed hl

/-- Claim C3 witness: a concrete seed with two distinct pagination links;
with `max_depth = 1` nothing is enqueued, with `max_depth = 2` exactly the
two depth-2 NORMAL tasks with the seed as referer are enqueued, and nothing
is enqueued from depth 2. -/
theorem depth_gate_witness :
    (queueLinks 1 "http://s/" ["http://s/p2", "http://s/p3"] 1
        (((CrawlQueue.init 0).put ⟨"http://s/", 1, .HIGH, none⟩ true).1)).2 = [] ∧
    (queueLinks 2 "http://s/" ["http://s/p2", "http://s/p3"] 1
        (((CrawlQueue.init 0).put ⟨"http://s/", 1, .HIGH, none⟩ true).1)).2
      = [⟨"http://s/p2", 2, .NORMAL, some "http://s/"⟩,
         ⟨"http://s/p3", 2, .NORMAL, some "http://s/"⟩] ∧
    (∀ (q : CrawlQueue), queueLinks 2 "http://s/p2" ["http://s/p4"] 2 q = (q, [])) := by
  have h := depth_gate "http://s/" ["http://s/p2", "http://s/p3"]
      (by decide) (by decide)
  exact ⟨h.2.1, h.2.2.1, fun q => h.2.2.2 "http://s/p2" ["http://s/p4"] q⟩

/-- Attributes of one `<img>` tag as the extractor reads them through
BeautifulSoup's `img.get` (`none` = attribute absent). -/
structure ImgTag where
  src : Option String
  data_src : Option String
  data_lazy_src : Option String
  alt : Option String
  title : Option String
  width : Option String
  height : Option String
deriving DecidableEq, Repr

/-- Python truthiness of an optional attribute value (`None` and `""` are
falsy). -/
def pyTruthy : Option String → Bool
  | none => false
  | some s => s != ""

/-- Python `x or y` on optional attribute values: `y` when `x` is falsy. -/
def pyOr (x y : Option String) : Option String :=
  if pyTruthy x then x else y

/-- The `img.get('src') or img.get('data-src') or img.get('data-lazy-src')`
chain of `PageParser._extract_images`. -/
def imgSrc (img : ImgTag) : Option String :=
  pyOr img.src (pyOr img.data_src img.data_lazy_src)

/-- The `img.get('alt') or img.get('title', '')` chain building the
resource title. -/
def imgTitle (img : ImgTag) : String :=
  match pyOr img.alt (some (img.title.getD "")) with
  | some t => t
  | none => ""

/-- Accumulating decimal-digit parser over a character list (`none` as soon
as a non-digit appears). -/
def digitsVal : List Char → Nat → Option Nat
  | [], acc => some acc
  | c :: rest, acc =>
    if c.isDigit then digitsVal rest (acc * 10 + (c.toNat - 48)) else none

/-- Model of Python `int(s)` on the plain decimal numerals found in width and
height attributes: an optional sign followed by one or more ASCII digits;
`none` stands for `ValueError`.  (Exotic `int()` inputs — surrounding
whitespace, underscores — are not modelled; they do not occur in the claims.) -/
def pyInt (s : String) : Option Int :=
  match s.data with
  | '-' :: rest => if rest = [] then none else (digitsVal rest 0).map (fun n => -(n : Int))
  | '+' :: rest => if rest = [] then none else (digitsVal rest 0).map (fun n => (n : Int))
  | cs => if cs = [] then none else (digitsVal cs 0).map (fun n => (n : Int))

/-- Tiny-image test of `PageParser._extract_images` (core/parser.py): runs
only when both `width` and `height` are truthy, then evaluates
`int(width) < 100 or int(height) < 100` left to right; a `ValueError` from
either conversion is caught and the image kept (`pass`).  Note the
short-circuit: when the width already parses below 100 the height is never
converted. -/
def skipTiny : Option String → Option String → Bool
  | some w, some h =>
    if w != "" && h != "" then
      match pyInt w with
      | none => false
      | some wi =>
        if wi < 100 then true
        else
          match pyInt h with
          | none => false
          | some hi => decide (hi < 100)
    else false
  | _, _ => false

/-- Loop body of `PageParser._extract_images`: take
`src or data-src or data-lazy-src`; skip the tag when that chain is falsy or
when the tiny-image test fires; otherwise emit an IMAGE resource at
`urljoin(base_url, src)` with title `alt or title or ''` and the page as
referer.  URL resolution (`urllib.parse.urljoin`) is passed in as an opaque
function `join`. -/
def imgStep (join : String → String → String) (base_url : String)
    (img : ImgTag) : Option Resource :=
  match imgSrc img with
  | none => none
  | some src =>
    if src = "" then none
    else if skipTiny img.width img.height then none
    else some ⟨join base_url src, .IMAGE, imgTitle img, "", some base_url, ""⟩

/-- Mirror of `PageParser._extract_images` (core/parser.py): the loop body
applied to every `<img>` of the content block, followed by
`self._deduplicate`. -/
def extractImages (join : String → String → String) (base_url : String)
    (imgs : List ImgTag) : List Resource :=
  deduplicate (imgs.filterMap (imgStep join base_url))

theorem dedupStep_cases (acc : List Resource × List String) (res : Resource) :
    (dedupStep acc res = (acc.1 ++ [res], res.url :: acc.2) ∧ res.url ≠ "" ∧ res.url ∉ acc.2) ∨
    (dedupStep acc res = (acc.1 ++ [res], acc.2) ∧ res.url = "") ∨
    (dedupStep acc res = acc ∧ res.url ≠ "" ∧ res.url ∈ acc.2) := by
  unfold dedupStep
  by_cases h1 : res.url ≠ "" ∧ res.url ∉ acc.2
  · rw [if_pos h1]; exact Or.inl ⟨rfl, h1⟩
  · by_cases h2 : res.url = ""
    · rw [if_neg h1, if_pos h2]; exact Or.inr (Or.inl ⟨rfl, h2⟩)
    · rw [if_neg h1, if_neg h2]
      refine Or.inr (Or.inr ⟨rfl, h2, ?_⟩)
      by_contra hn
      exact h1 ⟨h2, hn⟩

theorem dedupStep_fst_mono {acc : List Resource × List String} {r : Resource}
    (res : Resource) (h : r ∈ acc.1) : r ∈ (dedupStep acc res).1 := by
  rcases dedupStep_cases acc res with ⟨he, _⟩ | ⟨he, _⟩ | ⟨he, _⟩ <;> rw [he]
  · exact List.mem_append_left _ h
  · exact List.mem_append_left _ h
  · exact h

theorem dedup_foldl_subset (l : List Resource) :
    ∀ (acc : List Resource × List String) (r : Resource),
      r ∈ (l.foldl dedupStep acc).1 → r ∈ acc.1 ∨ r ∈ l := by
  induction l with
  | nil => intro acc r h; exact Or.inl h
  | cons x xs ih =>
    intro acc r h
    simp only [List.foldl_cons] at h
    rcases ih (dedupStep acc x) r h with h' | h'
    · rcases dedupStep_cases acc x with ⟨he, _⟩ | ⟨he, _⟩ | ⟨he, _⟩ <;> rw [he] at h'
      · rcases List.mem_append.mp h' with h'' | h''
        · exact Or.inl h''
        · simp only [List.mem_singleton] at h''
          exact Or.inr (h'' ▸ List.mem_cons_self _ _)
      · rcases List.mem_append.mp h' with h'' | h''
        · exact Or.inl h''
        · simp only [List.mem_singleton] at h''
          exact Or.inr (h'' ▸ List.mem_cons_self _ _)
      · exact Or.inl h'
    · exact Or.inr (List.mem_cons_of_mem _ h')

theorem dedup_foldl_mono (l : List Resource) :
    ∀ (acc : List Resource × List String) (r : Resource),
      r ∈ acc.1 → r ∈ (l.foldl dedupStep acc).1 := by
  induction l with
  | nil => intro acc r h; exact h
  | cons x xs ih =>
    intro acc r h
    simp only [List.foldl_cons]
    exact ih (dedupStep acc x) r (dedupStep_fst_mono x h)

theorem dedup_foldl_url_covered (l : List Resource) :
    ∀ acc : List Resource × List String,
      (∀ u ∈ acc.2, ∃ r' ∈ acc.1, r'.url = u) →
      ∀ r ∈ acc.1 ++ l, ∃ r' ∈ (l.foldl dedupStep acc).1, r'.url = r.url := by
  induction l with
  | nil =>
    intro acc _ r hr
    simp only [List.append_nil] at hr
    exact ⟨r, hr, rfl⟩
  | cons x xs ih =>
    intro acc hinv r hr
    simp only [List.foldl_cons]
    have hinv' : ∀ u ∈ (dedupStep acc x).2, ∃ r' ∈ (dedupStep acc x).1, r'.url = u := by
      intro u hu
      rcases dedupStep_cases acc x with ⟨he, _, _⟩ | ⟨he, _⟩ | ⟨he, _, _⟩ <;> rw [he] at hu ⊢
      · rcases List.mem_cons.mp hu with rfl | hu'
        · exact ⟨x, List.mem_append_right _ (List.mem_singleton.mpr rfl), rfl⟩
        · rcases hinv u hu' with ⟨r', hr', hru⟩
          exact ⟨r', List.mem_append_left _ hr', hru⟩
      · rcases hinv u hu with ⟨r', hr', hru⟩
        exact ⟨r', List.mem_append_left _ hr', hru⟩
      · exact hinv u hu
    rcases List.mem_append.mp hr with hr' | hr'
    · exact ih (dedupStep acc x) hinv' r
        (List.mem_append_left _ (dedupStep_fst_mono x hr'))
    · rcases List.mem_cons.mp hr' with rfl | hr''
      · rcases dedupStep_cases acc r with ⟨he, _, _⟩ | ⟨he, _⟩ | ⟨he, _, hseen⟩
        · have hmem : r ∈ (dedupStep acc r).1 := by
            rw [he]; exact List.mem_append_right _ (List.mem_singleton.mpr rfl)
          exact ih (dedupStep acc r) hinv' r (List.mem_append_left _ hmem)
        · have hmem : r ∈ (dedupStep acc r).1 := by
            rw [he]; exact List.mem_append_right _ (List.mem_singleton.mpr rfl)
          exact ih (dedupStep acc r) hinv' r (List.mem_append_left _ hmem)
        · rcases hinv r.url hseen with ⟨r', hr'', hru⟩
          have hmem : r' ∈ (dedupStep acc r).1 := dedupStep_fst_mono r hr''
          rcases ih (dedupStep acc r) hinv' r' (List.mem_append_left _ hmem)
            with ⟨r'', hr''', hru'⟩
          exact ⟨r'', hr''', hru'.trans hru⟩
      · exact ih (dedupStep acc x) hinv' r (List.mem_append_right _ hr'')

theorem deduplicate_subset {l : List Resource} {r : Resource}
    (h : r ∈ deduplicate l) : r ∈ l := by
  rcases dedup_foldl_subset l ([], []) r h with h' | h'
  · simp at h'
  · exact h'

theorem deduplicate_url_covered {l : List Resource} {r : Resource}
    (h : r ∈ l) : ∃ r' ∈ deduplicate l, r'.url = r.url := by
  apply dedup_foldl_url_covered l ([], [])
  · intro u hu; simp at hu
  · simpa using h

theorem imgStep_fields {join : String → String → String} {base_url : String}
    {img : ImgTag} {r : Resource} (h : imgStep join base_url img = some r) :
    r.resource_type = .IMAGE ∧ r.referer = some base_url := by
  unfold imgStep at h
  split at h
  · exact Option.noConfusion h
  · split_ifs at h
    injection h with h
    subst h
    exact ⟨rfl, rfl⟩

/-- Claim C6 counterexample: an `<img>` with `width="50"` and `height="200"`
is skipped by `PageParser._extract_images` — the code drops the tag when
`int(width) < 100 or int(height) < 100`, an either-test — although the
claim keeps every image unless both dimensions parse below 100. -/
theorem image_50x200_skipped :
    pyInt "50" = some 50 ∧ pyInt "200" = some 200 ∧
    ¬ ((50 : Int) < 100 ∧ (200 : Int) < 100) ∧
    skipTiny (some "50") (some "200") = true ∧
    extractImages (fun b s => b ++ s) "http://e.com/"
      [⟨some "a.jpg", none, none, some "pic", none, some "50", some "200"⟩] = [] := by
  decide

/-- Claim C6 (amended): every `<img>` whose `src or data-src or
data-lazy-src` chain yields a non-empty value produces an IMAGE resource
with URL `urljoin(base_url, src)` and the page as referer (up to URL
deduplication), unless the tiny-image test fires; and the tiny-image test
fires exactly when both `width` and `height` are present and non-empty and
the left-to-right evaluation of `int(width) < 100 or int(height) < 100`
succeeds with value true — that is, when the width parses below 100, or the
width parses at 100 or above and the height parses below 100.  (It is not
required that both dimensions be below 100: width 50 with height 200 is
skipped.) -/
theorem extract_images_emits_unless_tiny
    (join : String → String → String) (base_url : String) (imgs : List ImgTag)
    (img : ImgTag) (src : String)
    (hmem : img ∈ imgs) (hsrc : imgSrc img = some src) (hne : src ≠ "")
    (hkeep : skipTiny img.width img.height = false) :
    (∃ r ∈ extractImages join base_url imgs,
        r.url = join base_url src ∧ r.resource_type = .IMAGE ∧
        r.referer = some base_url) ∧
    (∀ w h : Option String, skipTiny w h = true ↔
      ∃ ws hs wi, w = some ws ∧ h = some hs ∧ ws ≠ "" ∧ hs ≠ "" ∧
        pyInt ws = some wi ∧
        (wi < 100 ∨ (100 ≤ wi ∧ ∃ hi, pyInt hs = some hi ∧ hi < 100))) := by
  constructor
  · have hstep0 : imgStep join base_url img =
        (if src = "" then none
         else if skipTiny img.width img.height then none
         else some ⟨join base_url src, .IMAGE, imgTitle img, "", some base_url, ""⟩) := by
      unfold imgStep
      rw [hsrc]
    have hstep : imgStep join base_url img =
        some ⟨join base_url src, .IMAGE, imgTitle img, "", some base_url, ""⟩ := by
      rw [hstep0, if_neg hne, hkeep]
      simp
    have hraw : (⟨join base_url src, .IMAGE, imgTitle img, "", some base_url, ""⟩ : Resource)
        ∈ imgs.filterMap (imgStep join base_url) :=
      List.mem_filterMap.mpr ⟨img, hmem, hstep⟩
    rcases deduplicate_url_covered hraw with ⟨r', hr', hurl⟩
    have hrraw : r' ∈ imgs.filterMap (imgStep join base_url) := deduplicate_subset hr'
    rcases List.mem_filterMap.mp hrraw with ⟨img', _, hstep'⟩
    rcases imgStep_fields hstep' with ⟨hty, href⟩
    exact ⟨r', hr', hurl, hty, href⟩
  · intro w h
    constructor
    · intro hst
      rcases w with _ | ws
      · simp [skipTiny] at hst
      rcases h with _ | hs
      · simp [skipTiny] at hst
      by_cases hws : ws = ""
      · subst hws; simp [skipTiny] at hst
      by_cases hhs : hs = ""
      · subst hhs; simp [skipTiny] at hst
      have hcond : (ws != "" && hs != "") = true := by simp [hws, hhs]
      simp only [skipTiny, hcond, if_true] at hst
      rcases hwi : pyInt ws with _ | wi
      · rw [hwi] at hst; simp at hst
      rw [hwi] at hst
      have hst1 : (if wi < 100 then true
          else (match pyInt hs with
                | none => false
                | some hi => decide (hi < 100))) = true := hst
      by_cases hlt : wi < 100
      · exact ⟨ws, hs, wi, rfl, rfl, hws, hhs, hwi, Or.inl hlt⟩
      rw [if_neg hlt] at hst1
      rcases hhi : pyInt hs with _ | hi
      · rw [hhi] at hst1; simp at hst1
      rw [hhi] at hst1
      have hst2 : decide (hi < 100) = true := hst1
      simp only [decide_eq_true_eq] at hst2
      exact ⟨ws, hs, wi, rfl, rfl, hws, hhs, hwi,
        Or.inr ⟨not_lt.mp hlt, hi, hhi, hst2⟩⟩
    · rintro ⟨ws, hs, wi, rfl, rfl, hws, hhs, hwi, hdisj⟩
      have hcond : (ws != "" && hs != "") = true := by simp [hws, hhs]
      simp only [skipTiny, hcond, if_true, hwi]
      rcases hdisj with hlt | ⟨hge, hi, hhi, hlt⟩
      · rw [if_pos hlt]
      · rw [if_neg (not_lt.mpr hge), hhi]
        simp [hlt]

/-- Claim C6 witness: a concrete 500×300 image is emitted with the joined
URL, IMAGE type and the page as referer, and the amended skip
characterization holds. -/
theorem extract_images_emits_unless_tiny_witness :
    (∃ r ∈ extractImages (fun b s => b ++ s) "http://e.com/"
        [⟨some "big.jpg", none, none, none, none, some "500", some "300"⟩],
        r.url = (fun b s => b ++ s) "http://e.com/" "big.jpg" ∧
        r.resource_type = .IMAGE ∧ r.referer = some "http://e.com/") ∧
    (∀ w h : Option String, skipTiny w h = true ↔
      ∃ ws hs wi, w = some ws ∧ h = some hs ∧ ws ≠ "" ∧ hs ≠ "" ∧
        pyInt ws = some wi ∧
        (wi < 100 ∨ (100 ≤ wi ∧ ∃ hi, pyInt hs = some hi ∧ hi < 100))) :=
  extract_images_emits_unless_tiny (fun b s => b ++ s) "http://e.com/"
    [⟨some "big.jpg", none, none, none, none, some "500", some "300"⟩]
    ⟨some "big.jpg", none, none, none, none, some "500", some "300"⟩ "big.jpg"
    (by decide) (by decide) (by decide) (by decide)

/-- Python list-membership test `needle in haystack` on characters:
does `needle` start `haystack`? -/
def charsStartWith : List Char → List Char → Bool
  | [], _ => true
  | _ :: _, [] => false
  | c :: cs, d :: ds => c == d && charsStartWith cs ds

/-- Does `needle` occur, contiguously, anywhere in `haystack`? -/
def charsContain (haystack needle : List Char) : Bool :=
  match haystack with
  | [] => charsStartWith needle []
  | _ :: rest => charsStartWith needle haystack || charsContain rest needle

/-- Python substring test `needle in haystack`. -/
def strContains (haystack needle : String) : Bool :=
  charsContain haystack.data needle.data

/-- Python `str.lower()` (character-wise, as for the ASCII class names the
scorer sees). -/
def lowerString (s : String) : String := String.mk (s.data.map Char.toLower)

/-- Abstraction of one candidate content block
(`<div | article | section | main>`): its class attribute tokens and the
tag/text counts `PageParser._score_content_block` reads off it. -/
structure Block where
  classes : List String
  h1_count : Nat
  h2_count : Nat
  p_count : Nat
  img_count : Nat
  text_length : Nat
deriving DecidableEq, Repr

/-- Positive class-name keywords of `PageParser._score_content_block`. -/
def positive_keywords : List String :=
  ["content", "article", "main", "post", "entry", "text", "body"]

/-- Negative class-name keywords of `PageParser._score_content_block`. -/
def negative_keywords : List String :=
  ["sidebar", "footer", "nav", "menu", "ads", "ad", "comment", "aside", "widget"]

/-- Mirror of `PageParser._score_content_block` (core/parser.py):
`classes = ' '.join(block.get('class', [])).lower()`, +10 per positive
keyword occurring in it as a substring, −20 per negative keyword, +10 per
`<h1>`, +5 per `<h2>`, +2 per `<p>`, +3 per `<img>`, −10 when the stripped
text is shorter than 50 characters and +15 when longer than 500. -/
def score_content_block (b : Block) : Int :=
  let classes := lowerString (" ".intercalate b.classes)
  let pos_score : Int :=
    10 * ((positive_keywords.filter (fun k => strContains classes k)).length : Int)
  let neg_score : Int :=
    20 * ((negative_keywords.filter (fun k => strContains classes k)).length : Int)
  let counts : Int := 10 * (b.h1_count : Int) + 5 * (b.h2_count : Int)
    + 2 * (b.p_count : Int) + 3 * (b.img_count : Int)
  let base := pos_score - neg_score + counts
  if b.text_length < 50 then base - 10
  else if b.text_length > 500 then base + 15
  else base

/-- The candidate fold of `PageParser._extract_main_content`: start from
`(best_score, best_block) = (-1000, whole document)` and keep each strictly
better-scoring block. -/
def best_block_fold (cands : List Block) : Int × Option Block :=
  cands.foldl
    (fun acc b =>
      if score_content_block b > acc.1 then (score_content_block b, some b) else acc)
    (-1000, none)

/-- Mirror of `PageParser._extract_main_content` (core/parser.py): `none`
stands for the whole-document fallback — used when there are no candidates
or when the best score is negative; otherwise the best-scoring block is
selected. -/
def extract_main_content (cands : List Block) : Option Block :=
  if cands.isEmpty then none
  else if (best_block_fold cands).1 < 0 then none
  else (best_block_fold cands).2

theorem best_fold_spec (cands : List Block) :
    ∀ (s : Int) (ob : Option Block),
      (cands.foldl
          (fun acc b =>
            if score_content_block b > acc.1 then (score_content_block b, some b) else acc)
          (s, ob) = (s, ob) ∧
        ∀ b' ∈ cands, score_content_block b' ≤ s) ∨
      (∃ bb ∈ cands,
        cands.foldl
          (fun acc b =>
            if score_content_block b > acc.1 then (score_content_block b, some b) else acc)
          (s, ob) = (score_content_block bb, some bb) ∧
        (∀ b' ∈ cands, score_content_block b' ≤ score_content_block bb) ∧
        s < score_content_block bb) := by
  induction cands with
  | nil => intro s ob; exact Or.inl ⟨rfl, by simp⟩
  | cons x xs ih =>
    intro s ob
    simp only [List.foldl_cons]
    by_cases hx : score_content_block x > s
    · rw [if_pos hx]
      rcases ih (score_content_block x) (some x) with ⟨heq, hall⟩ | ⟨bb, hmem, heq, hall, hlt⟩
      · refine Or.inr ⟨x, List.mem_cons_self _ _, heq, ?_, hx⟩
        intro b' hb'
        rcases List.mem_cons.mp hb' with rfl | hb''
        · exact le_refl _
        · exact hall b' hb''
      · refine Or.inr ⟨bb, List.mem_cons_of_mem _ hmem, heq, ?_, lt_trans hx hlt⟩
        intro b' hb'
        rcases List.mem_cons.mp hb' with rfl | hb''
        · exact le_of_lt hlt
        · exact hall b' hb''
    · rw [if_neg hx]
      rcases ih s ob with ⟨heq, hall⟩ | ⟨bb, hmem, heq, hall, hlt⟩
      · refine Or.inl ⟨heq, ?_⟩
        intro b' hb'
        rcases List.mem_cons.mp hb' with rfl | hb''
        · exact not_lt.mp hx
        · exact hall b' hb''
      · refine Or.inr ⟨bb, List.mem_cons_of_mem _ hmem, heq, ?_, hlt⟩
        intro b' hb'
        rcases List.mem_cons.mp hb' with rfl | hb''
        · exact le_trans (not_lt.mp hx) (le_of_lt hlt)
        · exact hall b' hb''

theorem extract_main_content_max {cands : List Block} {b : Block}
    (hsel : extract_main_content cands = some b) :
    b ∈ cands ∧ (∀ b' ∈ cands, score_content_block b' ≤ score_content_block b) ∧
      0 ≤ score_content_block b := by
  unfold extract_main_content at hsel
  by_cases hemp : cands.isEmpty
  · rw [if_pos hemp] at hsel; exact Option.noConfusion hsel
  rw [if_neg hemp] at hsel
  rcases best_fold_spec cands (-1000) none with ⟨heq, _⟩ | ⟨bb, hmem, heq, hall, _⟩
  · have heq' : best_block_fold cands = ((-1000 : Int), none) := heq
    rw [heq'] at hsel
    simp at hsel
  · have heq' : best_block_fold cands = (score_content_block bb, some bb) := heq
    rw [heq'] at hsel
    by_cases hneg : score_content_block bb < 0
    · simp [hneg] at hsel
    · simp [hneg] at hsel
      subst hsel
      exact ⟨hmem, hall, not_lt.mp hneg⟩

theorem extract_main_content_fallback {cands : List Block}
    (h : ∀ b ∈ cands, score_content_block b < 0) :
    extract_main_content cands = none := by
  unfold extract_main_content
  by_cases hemp : cands.isEmpty
  · rw [if_pos hemp]
  rw [if_neg hemp]
  rcases best_fold_spec cands (-1000) none with ⟨heq, _⟩ | ⟨bb, hmem, heq, _, _⟩
  · have heq' : best_block_fold cands = ((-1000 : Int), none) := heq
    rw [heq']
    simp
  · have heq' : best_block_fold cands = (score_content_block bb, some bb) := heq
    rw [heq']
    simp [h bb hmem]

theorem select_two_blocks (c s : Block)
    (hgt : score_content_block s < score_content_block c)
    (hpos : 0 ≤ score_content_block c) :
    extract_main_content [c, s] = some c ∧ extract_main_content [s, c] = some c := by
  have hsel : ∀ cands : List Block, cands = [c, s] ∨ cands = [s, c] →
      extract_main_content cands = some c := by
    intro cands hc
    have hemp : ¬ cands.isEmpty = true := by
      rcases hc with rfl | rfl <;> simp
    rcases best_fold_spec cands (-1000) none with ⟨_, hall⟩ | ⟨bb, hmem, heq, hall, _⟩
    · exfalso
      have hcm : c ∈ cands := by rcases hc with rfl | rfl <;> simp
      have := hall c hcm
      omega
    · have hbbc : bb = c := by
        have hbm : bb = c ∨ bb = s := by
          rcases hc with rfl | rfl <;> simp only [List.mem_cons,
            List.mem_singleton, List.not_mem_nil, or_false] at hmem <;> tauto
        rcases hbm with rfl | rfl
        · rfl
        · exfalso
          have hcm : c ∈ cands := by rcases hc with rfl | rfl <;> simp
          have := hall c hcm
          omega
      subst hbbc
      have heq' : best_block_fold cands = (score_content_block bb, some bb) := heq
      unfold extract_main_content
      rw [if_neg hemp, heq']
      simp only
      rw [if_neg (not_lt.mpr (by omega : (0 : Int) ≤ score_content_block bb))]
  exact ⟨hsel [c, s] (Or.inl rfl), hsel [s, c] (Or.inr rfl)⟩

theorem content_sidebar_scores (n : Nat) :
    score_content_block ⟨["content"], 0, 0, 0, 0, n⟩
      = score_content_block ⟨["sidebar"], 0, 0, 0, 0, n⟩ + 30 ∧
    0 ≤ score_content_block ⟨["content"], 0, 0, 0, 0, n⟩ := by
  have hfp : positive_keywords.filter
      (fun k => strContains (lowerString (" ".intercalate ["content"])) k)
      = ["content"] := by decide
  have hfn : negative_keywords.filter
      (fun k => strContains (lowerString (" ".intercalate ["content"])) k)
      = [] := by decide
  have hsp : positive_keywords.filter
      (fun k => strContains (lowerString (" ".intercalate ["sidebar"])) k)
      = [] := by decide
  have hsn : negative_keywords.filter
      (fun k => strContains (lowerString (" ".intercalate ["sidebar"])) k)
      = ["sidebar"] := by decide
  simp only [score_content_block, hfp, hfn, hsp, hsn]
  simp only [List.length_cons, List.length_nil]
  split_ifs <;> simp

/-- Claim C8: `PageParser._extract_main_content` selects a block of maximal
score (first conjunct: any selected block is a candidate, beats every
candidate's score, and its score is non-negative), falls back to the whole
document when every candidate scores negative (second conjunct), and for a
document holding one block of class `content` and one of class `sidebar`
with equal text (and equal tag counts), the `content` block is selected in
either document order (third conjunct).  The scoring weights (+10 per
positive class keyword, −20 per negative, +10 per `<h1>`, +5 per `<h2>`,
+2 per `<p>`, +3 per `<img>`, −10 under 50 text chars, +15 over 500) are
those of `score_content_block`. -/
theorem main_content_scoring :
    (∀ (cands : List Block) (b : Block), extract_main_content cands = some b →
        b ∈ cands ∧ (∀ b' ∈ cands, score_content_block b' ≤ score_content_block b) ∧
        0 ≤ score_content_block b) ∧
    (∀ cands : List Block, (∀ b ∈ cands, score_content_block b < 0) →
        extract_main_content cands = none) ∧
    (∀ n : Nat,
        extract_main_content
            [⟨["content"], 0, 0, 0, 0, n⟩, ⟨["sidebar"], 0, 0, 0, 0, n⟩]
          = some ⟨["content"], 0, 0, 0, 0, n⟩ ∧
        extract_main_content
            [⟨["sidebar"], 0, 0, 0, 0, n⟩, ⟨["content"], 0, 0, 0, 0, n⟩]
          = some ⟨["content"], 0, 0, 0, 0, n⟩) := by
  refine ⟨fun cands b hsel => extract_main_content_max hsel,
    fun cands h => extract_main_content_fallback h, fun n => ?_⟩
  obtain ⟨hdiff, hpos⟩ := content_sidebar_scores n
  exact select_two_blocks _ _ (by omega) hpos

/-- Claim C8 witness: the content/sidebar selection at text length 100, and
the maximality facts for that selection. -/
theorem main_content_scoring_witness :
    extract_main_content
        [⟨["content"], 0, 0, 0, 0, 100⟩, ⟨["sidebar"], 0, 0, 0, 0, 100⟩]
      = some ⟨["content"], 0, 0, 0, 0, 100⟩ ∧
    extract_main_content
        [⟨["sidebar"], 0, 0, 0, 0, 100⟩, ⟨["content"], 0, 0, 0, 0, 100⟩]
      = some ⟨["content"], 0, 0, 0, 0, 100⟩ :=
  main_content_scoring.2.2 100

/-- Outcome of one download attempt inside `DownloadRunnable.run`
(workers/downloader_worker.py): success (with the streamed file size) or an
exception whose `str(e)` is the message. -/
inductive AttemptOutcome
  | ok (file_size : Nat)
  | err (msg : String)

/-- Observable result of the retry loop plus the final
`update_resource_status` call of `DownloadRunnable.run`: number of attempts
performed, the `time.sleep` durations executed between attempts (seconds, in
order), how often the `.tmp` file was removed after a failure, and the final
status/error recorded in the catalog. -/
structure RunResult where
  attempts : Nat
  sleeps : List Nat
  temp_cleanups : Nat
  status : String
  error : Option String
  file_size : Nat
deriving DecidableEq, Repr

/-- Mirror of `max_retries = 3` in `DownloadRunnable.run`. -/
def max_retries : Nat := 3

/-- Mirror of `retry_delay = 2` (seconds) in `DownloadRunnable.run`. -/
def retry_delay : Nat := 2

/-- Mirror of the `for attempt in range(max_retries + 1)` loop of
`DownloadRunnable.run`: a successful attempt breaks out with status
"completed"; a failed attempt removes the temp file, then sleeps
`retry_delay * (attempt + 1)` seconds and retries while `attempt <
max_retries`, else leaves the loop with `success = False`; the final
`update_resource_status` writes status "completed"/"failed" and the last
error message. -/
def download_loop (outcome : Nat → AttemptOutcome) (attempt : Nat) : RunResult :=
  match outcome attempt with
  | .ok size =>
    { attempts := attempt + 1, sleeps := [], temp_cleanups := 0,
      status := "completed", error := none, file_size := size }
  | .err m =>
    if _h : attempt < max_retries then
      let r := download_loop outcome (attempt + 1)
      { r with sleeps := retry_delay * (attempt + 1) :: r.sleeps,
               temp_cleanups := r.temp_cleanups + 1 }
    else
      { attempts := attempt + 1, sleeps := [], temp_cleanups := 1,
        status := "failed", error := some m, file_size := 0 }
termination_by max_retries - attempt
decreasing_by omega

/-- The whole retry loop of `DownloadRunnable.run`, starting at attempt 0. -/
def download_run (outcome : Nat → AttemptOutcome) : RunResult :=
  download_loop outcome 0

/-- Claim C5: when every attempt fails with a (non-empty) exception message,
the worker performs exactly 4 attempts — the initial one plus 3 retries —
sleeping `retry_delay × (attempt + 1)` = 2, 4, 6 seconds between consecutive
attempts, removing the temp file after each of the 4 failures, and the final
catalog record is status "failed" with the last error message, which is
non-empty.  (The code has no disk-space short-circuit: a disk-space
`IOError` is caught by the same `except` and retried like any other error,
so the claim's carve-out is vacuous.) -/
theorem failed_download_four_attempts (outcome : Nat → AttemptOutcome)
    (msg : Nat → String)
    (herr : ∀ i, i ≤ max_retries → outcome i = .err (msg i))
    (hne : msg max_retries ≠ "") :
    (download_run outcome).attempts = 4 ∧
    (download_run outcome).sleeps = [2, 4, 6] ∧
    (download_run outcome).temp_cleanups = 4 ∧
    (download_run outcome).status = "failed" ∧
    (download_run outcome).error = some (msg max_retries) ∧
    (download_run outcome).error ≠ some "" := by
  have h0 := herr 0 (by simp [max_retries])
  have h1 := herr 1 (by simp [max_retries])
  have h2 := herr 2 (by simp [max_retries])
  have h3 := herr 3 (by simp [max_retries])
  have e3 : download_loop outcome 3 =
      { attempts := 4, sleeps := [], temp_cleanups := 1,
        status := "failed", error := some (msg 3), file_size := 0 } := by
    rw [download_loop, h3]
    simp [max_retries]
  have e2 : download_loop outcome 2 =
      { attempts := 4, sleeps := [6], temp_cleanups := 2,
        status := "failed", error := some (msg 3), file_size := 0 } := by
    rw [download_loop, h2]
    simp [max_retries, retry_delay, e3]
  have e1 : download_loop outcome 1 =
      { attempts := 4, sleeps := [4, 6], temp_cleanups := 3,
        status := "failed", error := some (msg 3), file_size := 0 } := by
    rw [download_loop, h1]
    simp [max_retries, retry_delay, e2]
  have e0 : download_loop outcome 0 =
      { attempts := 4, sleeps := [2, 4, 6], temp_cleanups := 4,
        status := "failed", error := some (msg 3), file_size := 0 } := by
    rw [download_loop, h0]
    simp [max_retries, retry_delay, e1]
  have hrun : download_run outcome =
      { attempts := 4, sleeps := [2, 4, 6], temp_cleanups := 4,
        status := "failed", error := some (msg 3), file_size := 0 } := by
    rw [download_run, e0]
  rw [hrun]
  refine ⟨rfl, rfl, rfl, rfl, rfl, ?_⟩
  simpa [max_retries] using fun hcon => hne hcon

/-- Claim C5 witness: a download whose every attempt fails with
"connection reset" performs 4 attempts, sleeps 2, 4 and 6 seconds, cleans
the temp file 4 times, and is recorded failed with that error. -/
theorem failed_download_four_attempts_witness :
    (download_run (fun _ => .err "connection reset")).attempts = 4 ∧
    (download_run (fun _ => .err "connection reset")).sleeps = [2, 4, 6] ∧
    (download_run (fun _ => .err "connection reset")).temp_cleanups = 4 ∧
    (download_run (fun _ => .err "connection reset")).status = "failed" ∧
    (download_run (fun _ => .err "connection reset")).error
      = some ((fun _ => "connection reset") max_retries) ∧
    (download_run (fun _ => .err "connection reset")).error ≠ some "" :=
  failed_download_four_attempts (fun _ => .err "connection reset")
    (fun _ => "connection reset") (fun _ _ => rfl) (by decide)

/-- Files present in the downloader's output directory, with their sizes
(the slice of the file system `DownloadRunnable` consults). -/
def FileSys : Type := List (String × Nat)

/-- Names of the existing files (`Path.exists`). -/
def FileSys.names (fs : FileSys) : List String := fs.map Prod.fst

/-- Size reported by `Path.stat().st_size` (0 for a missing file; the
check below also requires existence, so the default never decides). -/
def FileSys.sizeOn (fs : FileSys) (name : String) : Nat :=
  match fs.find? (fun e => e.1 == name) with
  | some e => e.2
  | none => 0

/-- Mirror of the `while True` search of `DownloadRunnable._ensure_unique`:
candidates `stem_1suffix`, `stem_2suffix`, … are tried in order until one
does not exist.  The recursion is bounded by explicit fuel in the embedding
(`|fs| + 1` is always enough below); `none` stands for exhausted fuel and
never arises in the verified uses. -/
def ensure_unique_from (fs : FileSys) (stem sfx : String) :
    Nat → Nat → Option String
  | _, 0 => none
  | counter, fuel + 1 =>
    let candidate := stem ++ "_" ++ toString counter ++ sfx
    if candidate ∈ fs.names then ensure_unique_from fs stem sfx (counter + 1) fuel
    else some candidate

/-- Mirror of `DownloadRunnable._ensure_unique` (workers/downloader_worker.py),
with the path split into stem and suffix: return the path unchanged when no
file with that name exists, otherwise the first `stem_<counter><suffix>`
that does not exist. -/
def ensure_unique (fs : FileSys) (stem sfx : String) : Option String :=
  if (stem ++ sfx) ∈ fs.names then ensure_unique_from fs stem sfx 1 (fs.length + 1)
  else some (stem ++ sfx)

theorem ensure_unique_from_not_mem {fs : FileSys} {stem sfx : String} :
    ∀ (fuel counter : Nat) (p : String),
      ensure_unique_from fs stem sfx counter fuel = some p → p ∉ fs.names := by
  intro fuel
  induction fuel with
  | zero => intro counter p h; exact Option.noConfusion h
  | succ n ih =>
    intro counter p h
    simp only [ensure_unique_from] at h
    by_cases hc : (stem ++ "_" ++ toString counter ++ sfx) ∈ fs.names
    · rw [if_pos hc] at h
      exact ih counter.succ p h
    · rw [if_neg hc] at h
      injection h with h
      subst h
      exact hc

theorem ensure_unique_not_mem {fs : FileSys} {stem sfx : String} {p : String}
    (h : ensure_unique fs stem sfx = some p) : p ∉ fs.names := by
  unfold ensure_unique at h
  by_cases hc : (stem ++ sfx) ∈ fs.names
  · rw [if_pos hc] at h
    exact ensure_unique_from_not_mem _ _ _ h
  · rw [if_neg hc] at h
    injection h with h
    subst h
    exact hc

/-- Decision trace of one attempt of `DownloadRunnable.run` for a resource
without inline `content` and with a plain (non-`data:`) URL. -/
structure CacheCheck where
  filepath : String
  skip_taken : Bool
  body_requested : Bool
deriving DecidableEq, Repr

/-- Mirror of the filename/cached-skip steps of `DownloadRunnable.run`
(workers/downloader_worker.py, attempt body): the derived target path is
first made unique against the output directory (`_ensure_unique`), then the
cached-skip test fires only when that path exists with positive size, the
HEAD-reported size is positive and within 100 bytes of the local size, and
the two sizes are equal; when the test does not fire the flow continues to
the streaming body download. -/
def run_cache_check (fs : FileSys) (stem sfx : String) (remote_size : Nat) :
    Option CacheCheck :=
  match ensure_unique fs stem sfx with
  | none => none
  | some p =>
    let local_size := fs.sizeOn p
    let skip := decide (p ∈ fs.names) && decide (0 < local_size)
      && decide (0 < remote_size)
      && decide (((remote_size : Int) - (local_size : Int)).natAbs < 100)
      && decide (remote_size = local_size)
    some { filepath := p, skip_taken := skip, body_requested := !skip }

/-- Claim C4 (code bug): the cached-skip branch of `DownloadRunnable.run`
is unreachable.  `_ensure_unique` runs before the existence check and always
returns a path that does not exist, so `filepath.exists()` is false on every
attempt: even for a resource whose derived target file already exists with
exactly the HEAD-reported content-length, the worker never skips — it picks
a fresh `stem_1` name and performs the body download, contrary to spec
scenario S5 (no body request, error "Skipped (cached)", file bytes
unchanged). -/
theorem cached_skip_branch_dead (fs : FileSys) (stem sfx : String)
    (remote_size : Nat) (c : CacheCheck)
    (h : run_cache_check fs stem sfx remote_size = some c) :
    c.skip_taken = false ∧ c.body_requested = true := by
  unfold run_cache_check at h
  rcases he : ensure_unique fs stem sfx with _ | p <;> rw [he] at h
  · exact Option.noConfusion h
  · have hnot : p ∉ fs.names := ensure_unique_not_mem he
    have hdec : decide (p ∈ fs.names) = false := decide_eq_false hnot
    injection h with h
    subst h
    simp [hdec]

/-- Claim C4 witness at the failing input of spec scenario S5: the output
directory holds `a.jpg` of 100 bytes, the resource's derived filename is
`a.jpg`, and HEAD reports content-length 100 — yet the worker renames to
`a_1.jpg`, takes no cached skip, and requests the body. -/
theorem cached_skip_branch_dead_witness :
    run_cache_check [("a.jpg", 100)] "a" ".jpg" 100
      = some { filepath := "a_1.jpg", skip_taken := false, body_requested := true } ∧
    ({ filepath := "a_1.jpg", skip_taken := false,
       body_requested := true } : CacheCheck).skip_taken = false ∧
    ({ filepath := "a_1.jpg", skip_taken := false,
       body_requested := true } : CacheCheck).body_requested = true :=
  ⟨by decide, cached_skip_branch_dead [("a.jpg", 100)] "a" ".jpg" 100 _ (by decide)⟩

/-- One row of the `resources` table (core/database.py), restricted to the
columns `add_resource` writes. -/
structure ResourceRow where
  id : Nat
  task_id : Nat
  url : String
  resource_type : String
  status : String
deriving DecidableEq, Repr

/-- State of the `resources` table together with the SQLite AUTOINCREMENT
counter (`lastrowid` of the next insert). -/
structure Catalog where
  rows : List ResourceRow
  next_id : Nat
deriving DecidableEq, Repr

/-- Python `str(ResourceType.X)` as stored in the `resource_type` column. -/
def ResourceType.pyStr : ResourceType → String
  | .VIDEO => "ResourceType.VIDEO"
  | .IMAGE => "ResourceType.IMAGE"
  | .TEXT => "ResourceType.TEXT"
  | .M3U8 => "ResourceType.M3U8"
  | ResourceType.AUDIO => "ResourceType.AUDIO"
  | .UNKNOWN => "ResourceType.UNKNOWN"
  | .JSON_DATA => "ResourceType.JSON_DATA"
  | .RICH_TEXT => "ResourceType.RICH_TEXT"

/-- Mirror of `DatabaseManager.add_resource` (core/database.py).  An empty
URL makes `getattr(resource_obj, 'url', None) or resource_obj.get('url')`
fall through to `.get`, which raises `AttributeError` on a `Resource`
dataclass; the enclosing `except` returns -1 with the table untouched.
Otherwise the method SELECTs an existing `(task_id, url)` row — if one is
found it returns -1 and changes nothing — else it INSERTs a new 'pending'
row and returns its id. -/
def add_resource (c : Catalog) (task_id : Nat) (res : Resource) :
    Catalog × Int :=
  if res.url = "" then (c, -1)
  else if c.rows.any (fun row => row.task_id == task_id && row.url == res.url) then
    (c, -1)
  else
    ({ rows := c.rows ++ [⟨c.next_id, task_id, res.url, res.resource_type.pyStr, "pending"⟩],
       next_id := c.next_id + 1 }, (c.next_id : Int))

/-- Claim C9: `add_resource` is idempotent per `(task_id, url)`.  A first
call that inserts a row returns the new row id; any second call with the
same task id and a resource carrying the same URL returns -1 and leaves the
catalog in exactly the same state — no new row, no field modified — so
`(task_id, url)` is effectively unique. -/
theorem add_resource_idempotent (c : Catalog) (task_id : Nat)
    (res res' : Resource) (hurl : res.url ≠ "")
    (hnew : ∀ row ∈ c.rows, ¬ (row.task_id = task_id ∧ row.url = res.url))
    (hsame : res'.url = res.url) :
    (add_resource c task_id res).2 = (c.next_id : Int) ∧
    (add_resource c task_id res).1.rows
      = c.rows ++ [⟨c.next_id, task_id, res.url, res.resource_type.pyStr, "pending"⟩] ∧
    add_resource (add_resource c task_id res).1 task_id res'
      = ((add_resource c task_id res).1, -1) := by
  have hany : c.rows.any (fun row => row.task_id == task_id && row.url == res.url) = false := by
    rw [List.any_eq_false]
    intro row hrow
    have := hnew row hrow
    simp only [Bool.and_eq_true, beq_iff_eq]
    tauto
  have hfirst : add_resource c task_id res =
      ({ rows := c.rows ++ [⟨c.next_id, task_id, res.url, res.resource_type.pyStr, "pending"⟩],
         next_id := c.next_id + 1 }, (c.next_id : Int)) := by
    unfold add_resource
    rw [if_neg hurl, hany]
    simp
  have hurl' : res'.url ≠ "" := by rw [hsame]; exact hurl
  have hany' : ((add_resource c task_id res).1.rows.any
      (fun row => row.task_id == task_id && row.url == res'.url)) = true := by
    rw [hfirst]
    simp only [List.any_eq_true]
    refine ⟨⟨c.next_id, task_id, res.url, res.resource_type.pyStr, "pending"⟩, ?_, ?_⟩
    · exact List.mem_append_right _ (List.mem_singleton.mpr rfl)
    · simp [hsame]
  have hsecond : ∀ c1 : Catalog,
      c1.rows.any (fun row => row.task_id == task_id && row.url == res'.url) = true →
      add_resource c1 task_id res' = (c1, -1) := by
    intro c1 h1
    unfold add_resource
    rw [if_neg hurl', h1]
    simp
  exact ⟨by rw [hfirst], by rw [hfirst], hsecond _ hany'⟩

/-- Claim C9 witness: inserting the same URL twice for task 1 into an empty
catalog — the first call inserts row 1 and returns its id, the second
returns -1 and leaves the table unchanged. -/
theorem add_resource_idempotent_witness :
    (add_resource ⟨[], 1⟩ 1 ⟨"http://e.com/a.jpg", .IMAGE, "a", ".jpg", none, ""⟩).2 = 1 ∧
    (add_resource ⟨[], 1⟩ 1 ⟨"http://e.com/a.jpg", .IMAGE, "a", ".jpg", none, ""⟩).1.rows
      = [⟨1, 1, "http://e.com/a.jpg", "ResourceType.IMAGE", "pending"⟩] ∧
    add_resource
        (add_resource ⟨[], 1⟩ 1 ⟨"http://e.com/a.jpg", .IMAGE, "a", ".jpg", none, ""⟩).1 1
        ⟨"http://e.com/a.jpg", .IMAGE, "b", ".jpg", some "http://p/", ""⟩
      = ((add_resource ⟨[], 1⟩ 1 ⟨"http://e.com/a.jpg", .IMAGE, "a", ".jpg", none, ""⟩).1, -1) := by
  have h := add_resource_idempotent ⟨[], 1⟩ 1
      ⟨"http://e.com/a.jpg", .IMAGE, "a", ".jpg", none, ""⟩
      ⟨"http://e.com/a.jpg", .IMAGE, "b", ".jpg", some "http://p/", ""⟩
      (by decide) (by intro row hrow; simp at hrow) rfl
  exact ⟨h.1, h.2.1, h.2.2⟩

end Crawler
